import Mathlib

/-!
Verification of the gulp optimize/minify build tasks and the terminal
history contribution, shallowly embedded in Lean 4. Pure fragments of the
TypeScript source are translated into executable Lean definitions; the
claims of the specification are stated and settled as theorems about those
definitions.
-/

namespace Optimize

/-- An entry point record, following `bundle.IEntryPoint` as used by
`optimizeESMTask`: a module name, an optional destination override, optional
`include` / `exclude` module-id lists and an optional list of files whose
contents are prepended. Lean reserves the word `include`, so the two list
fields carry a `List` suffix. -/
structure IEntryPoint where
  name : String
  dest : Option String := none
  includeList : Option (List String) := none
  excludeList : Option (List String) := none
  prepend : Option (List String) := none
deriving Repr, DecidableEq

/-- `DEFAULT_FILE_HEADER` from the source: the fixed copyright header. -/
def DEFAULT_FILE_HEADER : String :=
  "/*!--------------------------------------------------------\n" ++
  " * Copyright (C) Microsoft Corporation. All rights reserved.\n" ++
  " *--------------------------------------------------------*/"

/-- Insertion into a JavaScript `Set`: appends the element only when it is
not already present (insertion order preserved, no duplicates). -/
def setAdd (s : List String) (x : String) : List String :=
  if x ∈ s then s else s ++ [x]

/-- Adding every element of an optional list to a set, mirroring
`entryPoint.include?.forEach(allMentionedModules.add, allMentionedModules)`. -/
def setAddAll (s : List String) (xs : Option (List String)) : List String :=
  (xs.getD []).foldl setAdd s

/-- One iteration of the `for (const entryPoint of entryPoints)` loop that
populates `allMentionedModules`: add the name, then the include list, then
the exclude list. -/
def addMentioned (s : List String) (ep : IEntryPoint) : List String :=
  setAddAll (setAddAll (setAdd s ep.name) ep.includeList) ep.excludeList

/-- `allMentionedModules` as built by `optimizeESMTask`: fold the loop body
over the entry points starting from the empty set, then
`allMentionedModules.delete('vs/css')`. -/
def allMentionedModules (entryPoints : List IEntryPoint) : List String :=
  (entryPoints.foldl addMentioned []).filter (fun m => m ≠ "vs/css")

/-- The per-output-file `fileContentMapper` loop from `optimizeESMTask`:
`let newText = file.text; for (const input of inputs) newText = mapper(newText, input)`. -/
def applyMapperLoop (mapper : String → String → String) :
    String → List String → String
  | text, [] => text
  | text, input :: rest => applyMapperLoop mapper (mapper text input) rest

/-- `String.prototype.endsWith`, computed on the character data. -/
def strEndsWith (s suffix : String) : Bool :=
  suffix.data.isSuffixOf s.data

/-- Processing of one bundled output file inside the `esbuild.build(...).then`
callback: for a `.js` file with a `fileContentMapper` configured, the mapper
loop rewrites the text; otherwise the text is kept. -/
def processOutputContents (mapper : Option (String → String → String))
    (inputs : List String) (filePath : String) (fileText : String) : String :=
  if strEndsWith filePath ".js" then
    match mapper with
    | some m => applyMapperLoop m fileText inputs
    | none => fileText
  else fileText

/-- The js banner built per entry point: the fixed header, then the tslib
shim source, then each prepend file source followed by a newline
(`banner.js += source + '\n'`). -/
def buildBannerJs (tslib : String) (prepends : List String) : String :=
  prepends.foldl (fun banner source => banner ++ source ++ "\n")
    (DEFAULT_FILE_HEADER ++ tslib)

/-- The `banner` argument handed to `esbuild.build`: suppressed entirely for
the legacy entry point `vs/workbench/workbench.web.main`, the built js
banner otherwise. -/
def bannerForEntry (name : String) (tslib : String) (prepends : List String) :
    Option String :=
  if name = "vs/workbench/workbench.web.main" then none
  else some (buildBannerJs tslib prepends)

/-- `Promise.all` over already-settled tasks: the join rejects as soon as one
task rejected and resolves to the list of values only when every task
resolved. -/
def promiseAll {ε α : Type} : List (Except ε α) → Except ε (List α)
  | [] => .ok []
  | .error e :: _ => .error e
  | .ok a :: rest => (promiseAll rest).map (a :: ·)

/-- `bundleAsync`: every entry point contributes one task producing its
output files; `await Promise.all(tasks)` joins them and only then is the
collected file list returned. -/
def bundleAsync {ε α : Type} (tasks : List (Except ε (List α))) :
    Except ε (List α) :=
  (promiseAll tasks).map List.flatten

/-- The language gate at the end of `optimizeESMTask`:
`opts.languages && opts.languages.length ? processNlsFiles(...) : es.through()`.
`es.through()` is a pass-through stream, i.e. the identity. -/
def nlsStage {F : Type} (processNlsFiles : List F → List F)
    (languages : Option (List String)) (stream : List F) : List F :=
  match languages with
  | some ls => if ls.length ≠ 0 then processNlsFiles stream else stream
  | none => stream

end Optimize

namespace Minify

/-- Characters matched by the regex class `[^\x00-\xFF]`: code points above
`0xFF`. -/
def isNonLatin1 (c : Char) : Bool := 255 < c.toNat

/-- Whether `contents.toString().match(/[^\x00-\xFF]+/g)` finds a match:
some character lies outside the single-byte range. -/
def hasNonLatin1 (s : String) : Bool := s.data.any isNonLatin1

/-- `unicodeMatch[0]`: the first maximal run of characters outside the
single-byte range, i.e. the first match of `/[^\x00-\xFF]+/`. -/
def firstNonLatin1Run (s : String) : String :=
  String.mk (((s.data).dropWhile (fun c => !isNonLatin1 c)).takeWhile isNonLatin1)

/-- The error message constructed by the minify task when the check fails,
verbatim from the source. -/
def nonAsciiError (run : String) (path : String) : String :=
  "Found non-ascii character " ++ run ++ " in the minified output of " ++
  path ++ ". Non-ASCII characters in the output can cause performance problems when loading. Please review if you have introduced a regular expression that esbuild is not automatically converting and convert it to using unicode escape sequences."

/-- A vinyl file record as seen by the minify task: path, relative path,
contents and the gulp-sourcemaps `sourceMap` field. -/
structure VFile where
  path : String
  relative : String
  contents : String
  sourceMap : Option String := none
deriving Repr, DecidableEq

/-- The in-memory result of the esbuild minify build for one file: the
minified js text and the external source-map text. -/
structure MinifyBuildResult where
  jsText : String
  mapText : String

/-- The js branch of `minifyTask` for a single file: minify, then scan the
output for non-single-byte characters. On a match the error callback is
invoked with the descriptive error and the record is left untouched; else
`f.contents` and `f.sourceMap` are assigned and the file is passed on. The
second component is the state of the record after the branch ran. -/
def minifyJsBranch (build : String → MinifyBuildResult) (f : VFile) :
    Except String VFile × VFile :=
  let res := build f.contents
  if hasNonLatin1 res.jsText then
    (.error (nonAsciiError (firstNonLatin1Run res.jsText) f.path), f)
  else
    let f' : VFile :=
      { f with contents := res.jsText, sourceMap := some res.mapText }
    (.ok f', f')

/-- `gulp.dest(src + '-min')`: an accepted file is written into the sibling
`-min` directory at its relative path. -/
def minifyDest (src : String) (f : VFile) : String :=
  src ++ "-min" ++ "/" ++ f.relative

end Minify

namespace TerminalHistory

/-- A finished-command event as delivered by `onCommandFinished`. -/
structure CommandEvent where
  command : String
deriving Repr, DecidableEq

/-- `String.prototype.trim`, computed on the character data: removes
leading and trailing whitespace characters. -/
def jsTrim (s : String) : String :=
  String.mk
    (((s.data.dropWhile Char.isWhitespace).reverse.dropWhile
      Char.isWhitespace).reverse)

/-- The commands the history contribution records over a sequence of
finished-command events: `e.command` is added exactly when
`e.command.trim().length > 0`. -/
def commandsAddedToHistory (events : List CommandEvent) : List String :=
  (events.filter (fun e => (jsTrim e.command).length > 0)).map
    (fun e => e.command)

end TerminalHistory

namespace Manual

/-- A manual concatenation group, following `IOptimizeManualTaskOpts`:
ordered source globs and one destination name. -/
structure IOptimizeManualTaskOpts where
  src : List String
  out : String

/-- An output file of the manual task: destination name and contents. -/
structure OutFile where
  path : String
  contents : String
deriving Repr, DecidableEq

/-- Modelled from the spec: the external gulp-concat plugin used by
`optimizeManualTask` (its source is not part of this repository). It buffers
each incoming file in stream order, appending its contents to the
accumulated text with no separator and no other transformation, and at end
of stream emits a single file under the configured destination name. -/
def concatContents : List String → String :=
  List.foldl (fun acc contents => acc ++ contents) ""

/-- `gulp.src(opt.src).pipe(concat(opt.out))` for one group: the matched
source files (contents in glob resolution order, produced by the external
glob reader `resolve`) are concatenated into one output file named
`opt.out`. -/
def concatGroup (resolve : List String → List String)
    (opt : IOptimizeManualTaskOpts) : OutFile :=
  { path := opt.out, contents := concatContents (resolve opt.src) }

/-- `optimizeManualTask`: one concatenation stream per group, merged. -/
def optimizeManualTask (options : List IOptimizeManualTaskOpts)
    (resolve : List String → List String) : List OutFile :=
  options.map (concatGroup resolve)

end Manual

namespace Boilerplate

/-- Modelled from the spec: `bundle.removeAllTSBoilerplate` (defined in the
`bundle` module, whose source is not part of this repository) strips a known
set of compiler-emitted boilerplate blocks from a file, one block per
recognized start line, scanning line by line and blanking every line of a
recognized block (so the line count is preserved) until the block's end line
is reached. `removing = true` means the scanner is inside a boilerplate
block. -/
def stripLines (isStart isEnd : String → Bool) :
    List String → Bool → List String
  | [], _ => []
  | line :: rest, true => "" :: stripLines isStart isEnd rest (!isEnd line)
  | line :: rest, false =>
    if isStart line then "" :: stripLines isStart isEnd rest true
    else line :: stripLines isStart isEnd rest false

/-- Modelled from the spec: `removeAllTSBoilerplate` applied to a file given
as its list of lines, started outside any block. -/
def removeAllTSBoilerplate (isStart isEnd : String → Bool)
    (lines : List String) : List String :=
  stripLines isStart isEnd lines false

end Boilerplate

/-! ## Helper lemmas -/

namespace Optimize

theorem applyMapperLoop_eq_foldl (m : String → String → String) :
    ∀ (inputs : List String) (text : String),
      applyMapperLoop m text inputs = List.foldl m text inputs
  | [], _ => rfl
  | input :: rest, text => by
    rw [applyMapperLoop, List.foldl_cons, applyMapperLoop_eq_foldl m rest]

theorem mem_setAdd {s : List String} {x y : String} :
    y ∈ setAdd s x ↔ y ∈ s ∨ y = x := by
  by_cases h : x ∈ s
  · rw [setAdd, if_pos h]
    constructor
    · exact Or.inl
    · rintro (hy | rfl)
      · exact hy
      · exact h
  · rw [setAdd, if_neg h]
    simp

theorem mem_foldl_setAdd (y : String) :
    ∀ (l : List String) (s : List String),
      y ∈ l.foldl setAdd s ↔ y ∈ s ∨ y ∈ l
  | [], s => by simp
  | x :: rest, s => by
    rw [List.foldl_cons, mem_foldl_setAdd y rest]
    simp [mem_setAdd, or_assoc]

theorem mem_setAddAll {s : List String} {xs : Option (List String)} {y : String} :
    y ∈ setAddAll s xs ↔ y ∈ s ∨ y ∈ xs.getD [] :=
  mem_foldl_setAdd y (xs.getD []) s

theorem mem_addMentioned {s : List String} {ep : IEntryPoint} {y : String} :
    y ∈ addMentioned s ep ↔
      y ∈ s ∨ y = ep.name ∨ y ∈ ep.includeList.getD [] ∨
        y ∈ ep.excludeList.getD [] := by
  simp [addMentioned, mem_setAddAll, mem_setAdd, or_assoc]

theorem mem_foldl_addMentioned (y : String) :
    ∀ (eps : List IEntryPoint) (s : List String),
      y ∈ eps.foldl addMentioned s ↔
        y ∈ s ∨ ∃ ep ∈ eps, y = ep.name ∨ y ∈ ep.includeList.getD [] ∨
          y ∈ ep.excludeList.getD []
  | [], s => by simp
  | ep :: rest, s => by
    rw [List.foldl_cons, mem_foldl_addMentioned y rest]
    simp only [mem_addMentioned, List.mem_cons]
    constructor
    · rintro (((hs | hep) | hrest))
      · exact Or.inl hs
      · exact Or.inr ⟨ep, Or.inl rfl, hep⟩
      · obtain ⟨ep', hmem, hp⟩ := hrest
        exact Or.inr ⟨ep', Or.inr hmem, hp⟩
    · rintro (hs | ⟨ep', (rfl | hmem), hp⟩)
      · exact Or.inl (Or.inl hs)
      · exact Or.inl (Or.inr hp)
      · exact Or.inr ⟨ep', hmem, hp⟩

theorem exceptMap_error_iff {ε α β : Type} (g : α → β) (x : Except ε α) :
    (∃ e, x.map g = Except.error e) ↔ ∃ e, x = Except.error e := by
  cases x <;> simp [Except.map]

theorem promiseAll_error_iff {ε α : Type} :
    ∀ (tasks : List (Except ε α)),
      (∃ e, promiseAll tasks = Except.error e) ↔
        ∃ t ∈ tasks, ∃ e, t = Except.error e
  | [] => by simp [promiseAll]
  | Except.error e :: rest => by
    refine ⟨fun _ => ⟨Except.error e, List.mem_cons_self _ _, e, rfl⟩, fun _ => ⟨e, rfl⟩⟩
  | Except.ok a :: rest => by
    rw [show promiseAll (Except.ok a :: rest) = (promiseAll rest).map (a :: ·) from rfl,
      exceptMap_error_iff, promiseAll_error_iff rest]
    simp

theorem strJoin_cons (s : String) (l : List String) :
    String.join (s :: l) = s ++ String.join l := by
  apply String.ext
  simp

theorem foldl_banner_eq_join :
    ∀ (prepends : List String) (acc : String),
      prepends.foldl (fun banner source => banner ++ source ++ "\n") acc =
        acc ++ String.join (prepends.map (fun p => p ++ "\n"))
  | [], acc => by
    apply String.ext
    simp
  | p :: rest, acc => by
    rw [List.foldl_cons, foldl_banner_eq_join rest]
    apply String.ext
    simp [String.data_append]

end Optimize

namespace Minify

theorem dropWhile_not_of_any {p : Char → Bool} :
    ∀ (l : List Char), l.any p = true →
      ∃ x xs, l.dropWhile (fun c => !p c) = x :: xs ∧ p x = true
  | [], h => by simp at h
  | c :: rest, h => by
    cases hc : p c with
    | true =>
      exact ⟨c, rest, by simp [List.dropWhile_cons, hc], hc⟩
    | false =>
      have hrest : rest.any p = true := by simpa [List.any_cons, hc] using h
      obtain ⟨x, xs, hd, hx⟩ := dropWhile_not_of_any rest hrest
      exact ⟨x, xs, by simpa [List.dropWhile_cons, hc] using hd, hx⟩

end Minify

namespace Boilerplate

theorem stripLines_no_start {isStart isEnd : String → Bool}
    (h : isStart "" = false) :
    ∀ (lines : List String) (removing : Bool) (l : String),
      l ∈ stripLines isStart isEnd lines removing → isStart l = false := by
  intro lines
  induction lines with
  | nil => intro removing l hl; simp [stripLines] at hl
  | cons line rest ih =>
    intro removing l hl
    cases removing with
    | true =>
      rw [stripLines] at hl
      rcases List.mem_cons.mp hl with rfl | hl'
      · exact h
      · exact ih _ l hl'
    | false =>
      rw [stripLines] at hl
      by_cases hB : isStart line = true
      · rw [if_pos hB] at hl
        rcases List.mem_cons.mp hl with rfl | hl'
        · exact h
        · exact ih _ l hl'
      · rw [if_neg hB] at hl
        rcases List.mem_cons.mp hl with rfl | hl'
        · exact Bool.not_eq_true _ ▸ hB
        · exact ih _ l hl'

theorem stripLines_id {isStart isEnd : String → Bool} :
    ∀ (lines : List String), (∀ l ∈ lines, isStart l = false) →
      stripLines isStart isEnd lines false = lines := by
  intro lines
  induction lines with
  | nil => intro _; rfl
  | cons line rest ih =>
    intro hall
    have h1 : isStart line = false := hall line (List.mem_cons_self _ _)
    rw [stripLines, if_neg (by simp [h1])]
    exact congrArg (line :: ·) (ih fun l hl => hall l (List.mem_cons_of_mem _ hl))

end Boilerplate

/-! ## Claim theorems -/

/-- C1: for every bundled `.js` output file with a `fileContentMapper`
supplied, the final contents equal a left fold of the mapper over the
bundle's input paths, starting from the bundled text: the mapper is invoked
once per input path with the current accumulated text, its result becoming
the next accumulator. -/
theorem C1_fileContentMapper_fold (m : String → String → String)
    (inputs : List String) (filePath fileText : String)
    (h : Optimize.strEndsWith filePath ".js" = true) :
    Optimize.processOutputContents (some m) inputs filePath fileText =
      List.foldl m fileText inputs := by
  rw [Optimize.processOutputContents, if_pos h]
  exact Optimize.applyMapperLoop_eq_foldl m inputs fileText

theorem C1_witness :
    Optimize.strEndsWith "vs/code.js" ".js" = true ∧
    Optimize.processOutputContents (some (fun t p => t ++ p))
        ["in1.js", "in2.js"] "vs/code.js" "text" =
      List.foldl (fun t p => t ++ p) "text" ["in1.js", "in2.js"] :=
  ⟨by decide, C1_fileContentMapper_fold _ _ _ _ (by decide)⟩

/-- C5: the mentioned-module set built before bundling contains exactly the
module-ids appearing as an entry point name or inside any include or
exclude list, with the legacy meta-module id `vs/css` unconditionally
removed. -/
theorem C5_allMentionedModules_spec (entryPoints : List Optimize.IEntryPoint)
    (x : String) :
    x ∈ Optimize.allMentionedModules entryPoints ↔
      x ≠ "vs/css" ∧ ∃ ep ∈ entryPoints,
        x = ep.name ∨ x ∈ ep.includeList.getD [] ∨ x ∈ ep.excludeList.getD [] := by
  rw [Optimize.allMentionedModules, List.mem_filter,
    Optimize.mem_foldl_addMentioned]
  simp [and_comm]

/-- C4: the bundle stage joins all per-entry-point tasks with
`Promise.all`: the joined result is an error exactly when at least one task
errs, hence the collected file list is returned only when every task
succeeds and no partial list is produced. -/
theorem C4_bundleAsync_fail_fast {ε α : Type}
    (tasks : List (Except ε (List α))) :
    (∃ e, Optimize.bundleAsync tasks = Except.error e) ↔
      ∃ t ∈ tasks, ∃ e, t = Except.error e := by
  rw [show Optimize.bundleAsync tasks = (Optimize.promiseAll tasks).map List.flatten
      from rfl,
    Optimize.exceptMap_error_iff, Optimize.promiseAll_error_iff]

/-- C6: when the configured language list is empty or absent, the
localization stage at the end of `optimizeESMTask` is the identity on the
output stream, exactly as if the stage were skipped. -/
theorem C6_nlsStage_identity {F : Type} (processNlsFiles : List F → List F)
    (languages : Option (List String))
    (h : languages = none ∨ languages = some []) (stream : List F) :
    Optimize.nlsStage processNlsFiles languages stream = stream := by
  rcases h with rfl | rfl <;> simp [Optimize.nlsStage]

theorem C6_witness :
    Optimize.nlsStage (fun _ => ([] : List Nat)) none [1, 2, 3] = [1, 2, 3] :=
  C6_nlsStage_identity (fun _ => ([] : List Nat)) none (Or.inl rfl) [1, 2, 3]

/-- C3: the banner passed to the bundler is the fixed copyright header,
then the tslib shim source, then each prepend file's contents in declared
order (each followed by a newline); the entry point
`vs/workbench/workbench.web.main` receives no banner at all. -/
theorem C3_banner_spec (tslib : String) (prepends : List String)
    (name : String) (h : name ≠ "vs/workbench/workbench.web.main") :
    Optimize.bannerForEntry "vs/workbench/workbench.web.main" tslib prepends = none ∧
    Optimize.bannerForEntry name tslib prepends =
      some (Optimize.DEFAULT_FILE_HEADER ++ tslib ++
        String.join (prepends.map (fun p => p ++ "\n"))) := by
  constructor
  · rw [Optimize.bannerForEntry, if_pos rfl]
  · rw [Optimize.bannerForEntry, if_neg h, Optimize.buildBannerJs,
      Optimize.foldl_banner_eq_join]

theorem C3_witness :
    Optimize.bannerForEntry "vs/workbench/workbench.web.main" "TSLIB" ["P1", "P2"] =
      none ∧
    Optimize.bannerForEntry "vs/server/node/server.main" "TSLIB" ["P1", "P2"] =
      some (Optimize.DEFAULT_FILE_HEADER ++ "TSLIB" ++
        String.join (["P1", "P2"].map (fun p => p ++ "\n"))) :=
  C3_banner_spec "TSLIB" ["P1", "P2"] "vs/server/node/server.main" (by decide)

/-- C8: the boilerplate-stripping transform applied by the build plugin is
idempotent: stripping already-stripped text changes nothing, provided a
blank line is never a boilerplate start line. -/
theorem C8_removeAllTSBoilerplate_idempotent (isStart isEnd : String → Bool)
    (h : isStart "" = false) (lines : List String) :
    Boilerplate.removeAllTSBoilerplate isStart isEnd
        (Boilerplate.removeAllTSBoilerplate isStart isEnd lines) =
      Boilerplate.removeAllTSBoilerplate isStart isEnd lines := by
  rw [Boilerplate.removeAllTSBoilerplate, Boilerplate.removeAllTSBoilerplate]
  exact Boilerplate.stripLines_id _
    (fun l hl => Boilerplate.stripLines_no_start h _ _ l hl)

theorem C8_witness :
    Boilerplate.removeAllTSBoilerplate (fun l => l == "var __helper = start")
        (fun l => l == "end of helper")
        (Boilerplate.removeAllTSBoilerplate (fun l => l == "var __helper = start")
          (fun l => l == "end of helper")
          ["keep", "var __helper = start", "body", "end of helper", "tail"]) =
      Boilerplate.removeAllTSBoilerplate (fun l => l == "var __helper = start")
        (fun l => l == "end of helper")
        ["keep", "var __helper = start", "body", "end of helper", "tail"] :=
  C8_removeAllTSBoilerplate_idempotent _ _ (by decide) _

/-- C7: every manual-concatenation group produces exactly one output file
named `out` whose contents are the concatenation of the resolved source
files' contents in resolution order, with no separator inserted. -/
theorem C7_optimizeManualTask_spec (options : List Manual.IOptimizeManualTaskOpts)
    (resolve : List String → List String) (opt : Manual.IOptimizeManualTaskOpts)
    (h : opt ∈ options) :
    (Manual.optimizeManualTask options resolve).length = options.length ∧
    Manual.concatGroup resolve opt ∈ Manual.optimizeManualTask options resolve ∧
    (Manual.concatGroup resolve opt).path = opt.out ∧
    ∀ a b, resolve opt.src = [a, b] →
      (Manual.concatGroup resolve opt).contents = a ++ b := by
  refine ⟨List.length_map _ _, List.mem_map_of_mem _ h, rfl, ?_⟩
  intro a b hab
  show Manual.concatContents (resolve opt.src) = a ++ b
  rw [hab, Manual.concatContents]
  apply String.ext
  simp [String.data_append]

theorem C7_witness :
    (Manual.optimizeManualTask [⟨["a.js", "b.js"], "c.js"⟩]
        (fun _ => ["AAA", "BBB"])).length = 1 ∧
    Manual.concatGroup (fun _ => ["AAA", "BBB"]) ⟨["a.js", "b.js"], "c.js"⟩ ∈
      Manual.optimizeManualTask [⟨["a.js", "b.js"], "c.js"⟩]
        (fun _ => ["AAA", "BBB"]) ∧
    (Manual.concatGroup (fun _ => ["AAA", "BBB"]) ⟨["a.js", "b.js"], "c.js"⟩).path =
      "c.js" ∧
    (Manual.concatGroup (fun _ => ["AAA", "BBB"])
        ⟨["a.js", "b.js"], "c.js"⟩).contents = "AAA" ++ "BBB" := by
  have t := C7_optimizeManualTask_spec [⟨["a.js", "b.js"], "c.js"⟩]
    (fun _ => ["AAA", "BBB"]) ⟨["a.js", "b.js"], "c.js"⟩
    (List.mem_singleton.mpr rfl)
  exact ⟨t.1, t.2.1, t.2.2.1, t.2.2.2 "AAA" "BBB" rfl⟩

/-- C2: in the minify task's JS branch the regex check triggers exactly when
some character of the minified output lies outside the single-byte range;
on a match the task fails with the error naming the first offending run and
the file path, otherwise the record is accepted with minified contents and
written into the sibling `-min` directory; the reported run is non-empty
and consists of offending characters only. -/
theorem C2_minify_ascii_guard (build : String → Minify.MinifyBuildResult)
    (f : Minify.VFile) (src : String) :
    (Minify.hasNonLatin1 (build f.contents).jsText = true ↔
      ∃ c ∈ (build f.contents).jsText.data, 255 < c.toNat) ∧
    (Minify.minifyJsBranch build f).1 =
      (if Minify.hasNonLatin1 (build f.contents).jsText then
        Except.error (Minify.nonAsciiError
          (Minify.firstNonLatin1Run (build f.contents).jsText) f.path)
      else Except.ok
        { f with
          contents := (build f.contents).jsText
          sourceMap := some (build f.contents).mapText }) ∧
    Minify.minifyDest src (Minify.minifyJsBranch build f).2 =
      src ++ "-min" ++ "/" ++ f.relative ∧
    (Minify.hasNonLatin1 (build f.contents).jsText = true →
      Minify.firstNonLatin1Run (build f.contents).jsText ≠ "" ∧
      ∀ c ∈ (Minify.firstNonLatin1Run (build f.contents).jsText).data,
        255 < c.toNat) := by
  refine ⟨?_, ?_, ?_, ?_⟩
  · simp [Minify.hasNonLatin1, List.any_eq_true, Minify.isNonLatin1]
  · rw [Minify.minifyJsBranch]
    split
    · rfl
    · rfl
  · rw [Minify.minifyJsBranch]
    split
    · rfl
    · rfl
  · intro h
    obtain ⟨x, xs, hd, hx⟩ := Minify.dropWhile_not_of_any
      ((build f.contents).jsText.data) h
    constructor
    · rw [Minify.firstNonLatin1Run, hd, List.takeWhile_cons, if_pos hx]
      simp [String.ext_iff]
    · intro c hc
      rw [Minify.firstNonLatin1Run] at hc
      have := List.mem_takeWhile_imp hc
      simpa [Minify.isNonLatin1] using this

theorem C2_witness :
    (Minify.minifyJsBranch (fun s => ⟨s, "map"⟩)
        ⟨"/out/a.js", "a.js", "x日y", none⟩).1 =
      Except.error (Minify.nonAsciiError "日" "/out/a.js") ∧
    Minify.firstNonLatin1Run "x日y" ≠ "" ∧
    ∀ c ∈ (Minify.firstNonLatin1Run "x日y").data, 255 < c.toNat := by
  have t := C2_minify_ascii_guard (fun s => ⟨s, "map"⟩)
    ⟨"/out/a.js", "a.js", "x日y", none⟩ "/out"
  have h4 := t.2.2.2 (by decide)
  exact ⟨rfl, h4.1, h4.2⟩

/-- C9: when the non-single-byte check in the minify task's JS branch
fails, the error path is taken before `f.contents` or `f.sourceMap` is
assigned, so the file record keeps its pre-minification contents and
source map. -/
theorem C9_minify_error_keeps_record (build : String → Minify.MinifyBuildResult)
    (f : Minify.VFile)
    (h : Minify.hasNonLatin1 (build f.contents).jsText = true) :
    ((Minify.minifyJsBranch build f).2).contents = f.contents ∧
    ((Minify.minifyJsBranch build f).2).sourceMap = f.sourceMap := by
  refine ⟨?_, ?_⟩ <;> simp [Minify.minifyJsBranch, h]

theorem C9_witness :
    ((Minify.minifyJsBranch (fun s => ⟨s, "map"⟩)
        ⟨"/out/a.js", "a.js", "日", none⟩).2).contents = "日" ∧
    ((Minify.minifyJsBranch (fun s => ⟨s, "map"⟩)
        ⟨"/out/a.js", "a.js", "日", none⟩).2).sourceMap = none :=
  C9_minify_error_keeps_record (fun s => ⟨s, "map"⟩)
    ⟨"/out/a.js", "a.js", "日", none⟩ (by decide)

/-- C10: every command recorded by the terminal history contribution is
non-empty after trimming whitespace: a finished command is added only when
`command.trim()` has positive length. -/
theorem C10_history_commands_nonempty
    (events : List TerminalHistory.CommandEvent) (c : String)
    (h : c ∈ TerminalHistory.commandsAddedToHistory events) :
    0 < (TerminalHistory.jsTrim c).length := by
  rw [TerminalHistory.commandsAddedToHistory] at h
  obtain ⟨e, he, rfl⟩ := List.mem_map.mp h
  have := (List.mem_filter.mp he).2
  simpa using this

theorem C10_witness : 0 < (TerminalHistory.jsTrim "ls -la").length :=
  C10_history_commands_nonempty [⟨"ls -la"⟩, ⟨"   "⟩] "ls -la" (by decide)
